import Mathlib

/-!
Verification of the simple-jsx-parser repository.

Shallow embedding of the two source files:
  * `src/jsx-parser/html-parser.js` — node classes, `kMarkupPattern`,
    `parse`, `handleJSXTag`, `parseProps`;
  * the unnamed source file — `JSX_INTERPOLATION`, `translate`,
    `stringify`, `parseText`, and the per-span pipeline of `parseJSX`.

Strings are modelled as `List Char` (JS strings are sequences of code
units; all inputs considered here are in the BMP, where one code unit is
one `Char`).  JS mutable state is threaded explicitly: the module-level
regex `kMarkupPattern` carries a `lastIndex` cursor across invocations of
`parse`, so the embedding `parseFrom` takes the incoming cursor and
returns the final cursor alongside the result.
-/

/-- The character `\x7b` (left curly brace). -/
def lbrace : Char := Char.ofNat 123

/-- The character `\x7d` (right curly brace). -/
def rbrace : Char := Char.ofNat 125

/-- The backquote character (code 96), used by `parseText` for template literals. -/
def bq : Char := Char.ofNat 96

/-- The single-quote character (code 39), one of the two quote kinds of `parseProps`. -/
def sqc : Char := Char.ofNat 39

/-- The char list of a string literal. -/
def lchars (s : String) : List Char := s.data

/-- JavaScript whitespace: the character class `\s` of JS regexes, which is also
the set stripped by `String.prototype.trim` (ASCII whitespace, NBSP, and the
Unicode space separators plus BOM). -/
def jsWs (c : Char) : Bool :=
  c == ' ' || c == '\t' || c == '\n' || c == '\r' ||
  c.val == 11 || c.val == 12 || c.val == 160 || c.val == 0x1680 ||
  (0x2000 ≤ c.val && c.val ≤ 0x200A) || c.val == 0x2028 || c.val == 0x2029 ||
  c.val == 0x202F || c.val == 0x205F || c.val == 0x3000 || c.val == 0xFEFF

/-- JS `String.prototype.trim`: drop `jsWs` characters from both ends. -/
def jsTrimL (l : List Char) : List Char :=
  ((l.dropWhile jsWs).reverse.dropWhile jsWs).reverse

/-- JS `str.replace(/\s+/g, " ")`: collapse every run of whitespace to one space. -/
def collapseWs : List Char → List Char
  | [] => []
  | [c] => if jsWs c then [' '] else [c]
  | c :: d :: r =>
    if jsWs c then
      if jsWs d then collapseWs (d :: r) else ' ' :: collapseWs (d :: r)
    else c :: collapseWs (d :: r)

/-- JS `hay.startsWith(needle)`. -/
def startsWithL : List Char → List Char → Bool
  | _, [] => true
  | [], _ :: _ => false
  | h :: hs, n :: ns => h == n && startsWithL hs ns

/-- JS `hay.includes(needle)`: substring containment. -/
def containsL : List Char → List Char → Bool
  | [], needle => needle.isEmpty
  | hay@(_ :: hs), needle => startsWithL hay needle || containsL hs needle

/-- JS object property write `attrs[key] = value`: if the key is present the
value is replaced in place (insertion order kept), otherwise the pair is
appended. -/
def insertAssoc : List (List Char × List Char) → List Char → List Char →
    List (List Char × List Char)
  | [], k, v => [(k, v)]
  | (k', v') :: r, k, v =>
    if k' = k then (k', v) :: r else (k', v') :: insertAssoc r k v

/-- The scanner state of `parseProps` (html-parser.js lines 191–258):
accumulated attributes, current key and value, and the three mutually
exclusive modes (inside quotes with the active quote char, inside braces,
default) plus the `isParsingValue` flag. -/
structure APState where
  attrs : List (List Char × List Char)
  key : List Char
  value : List Char
  inQuotes : Bool
  quoteType : Char
  inBraces : Bool
  isParsingValue : Bool
  deriving DecidableEq, Repr

/-- Storing one pair (html-parser.js lines 234–236 and 252–254):
trim the value, strip its outer braces when it starts with `\x7b`
(`slice(1, -1)`), trim again, and write it under the trimmed key. -/
def ppStore (attrs : List (List Char × List Char)) (key value : List Char) :
    List (List Char × List Char) :=
  let v1 := jsTrimL value
  let v2 := if v1.head? == some lbrace then (v1.dropLast).drop 1 else v1
  insertAssoc attrs (jsTrimL key) (jsTrimL v2)

/-- One character of the `parseProps` loop (html-parser.js lines 200–248). -/
def ppStep (st : APState) (c : Char) : APState :=
  if st.inQuotes then
    if c == st.quoteType then
      { st with inQuotes := false, value := st.value ++ [c] }
    else
      { st with value := st.value ++ [c] }
  else if st.inBraces then
    if c == rbrace then
      { st with inBraces := false, value := st.value ++ [c] }
    else
      { st with value := st.value ++ [c] }
  else
    if c == '=' then
      { st with isParsingValue := true }
    else if c == '"' || c == sqc then
      { st with inQuotes := true, quoteType := c, value := st.value ++ [c] }
    else if c == lbrace then
      { st with inBraces := true, value := st.value ++ [c] }
    else if c == ' ' && st.isParsingValue && !(jsTrimL st.value).isEmpty then
      { st with attrs := ppStore st.attrs st.key st.value,
                key := [], value := [], isParsingValue := false }
    else if st.isParsingValue then
      { st with value := st.value ++ [c] }
    else
      { st with key := st.key ++ [c] }

/-- Initial `parseProps` state. -/
def ppInit : APState := ⟨[], [], [], false, ' ', false, false⟩

/-- `parseProps` (html-parser.js lines 191–258): run the scanner over the raw
attribute string, then store the last pair when both the trimmed key and the
trimmed value are non-empty. -/
def parseProps (propsString : List Char) : List (List Char × List Char) :=
  let st := propsString.foldl ppStep ppInit
  if !(jsTrimL st.key).isEmpty && !(jsTrimL st.value).isEmpty then
    ppStore st.attrs st.key st.value
  else
    st.attrs

/-- JS `hay.endsWith(needle)`. -/
def endsWithL (hay needle : List Char) : Bool :=
  startsWithL hay.reverse needle.reverse

/-- The classification of one `kMarkupPattern` match, as produced by
`handleJSXTag` (html-parser.js lines 150–189). -/
structure TagInfo where
  tagName : List Char
  props : List Char
  isSelfClosed : Bool
  closed : Bool
  deriving DecidableEq, Repr

/-- `handleJSXTag` (html-parser.js lines 150–189): trim the token, classify it
as a close tag (starts with `</`) or open/self-closing tag (ends with `/>`),
and split out the tag name and the raw attribute substring at the first
plain space of the bracket-stripped content. -/
def handleJSXTag (input : List Char) : TagInfo :=
  let trimmed := jsTrimL input
  if startsWithL trimmed (lchars "</") then
    let endTag :=
      match trimmed.findIdx? (· == '>') with
      | some i => jsTrimL ((trimmed.take i).drop 2)
      | none => jsTrimL ((trimmed.dropLast).drop 2)
    ⟨endTag, [], false, true⟩
  else
    let isSelfClosed := endsWithL trimmed (lchars "/>")
    let innerContent :=
      jsTrimL ((if isSelfClosed then trimmed.dropLast.dropLast else trimmed.dropLast).drop 1)
    match innerContent.findIdx? (· == ' ') with
    | none => ⟨innerContent, [], isSelfClosed, false⟩
    | some i => ⟨innerContent.take i, jsTrimL (innerContent.drop (i + 1)), isSelfClosed, false⟩

/-- The attribute-name character class `[^=<>/\s]` of `kMarkupPattern`. -/
def attrNameChar (c : Char) : Bool :=
  !(c == '=' || c == '<' || c == '>' || c == '/' || jsWs c)

/-- The brace-delimited value alternative of `kMarkupPattern`, after its opening
brace: the body of `\x7b([^\x7b\x7d]|\x7b([^\x7b\x7d]|\x7b[^\x7b\x7d]*\x7d)*\x7d)*\x7d`.
`depth` is how many further nested brace levels the pattern still allows (2 at
the value level).  `fuel` only bounds recursion; any `fuel ≥ cs.length` gives
the regex behaviour, since every step consumes a character. -/
def braceBody : Nat → Nat → List Char → Option (List Char)
  | 0, _, _ => none
  | _ + 1, _, [] => none
  | fuel + 1, depth, c :: r =>
    if c == rbrace then some r
    else if c == lbrace then
      if depth == 0 then none
      else
        match braceBody fuel (depth - 1) r with
        | some r2 => braceBody fuel depth r2
        | none => none
    else braceBody fuel depth r

/-- The quoted/braced value alternatives `"[^"]*"|'[^']*'|\x7b...\x7d` of
`kMarkupPattern`. -/
def matchValue (cs : List Char) : Option (List Char) :=
  match cs with
  | [] => none
  | c :: r =>
    if c == '"' then
      match r.dropWhile (fun x => x != '"') with
      | x :: r2 => if x == '"' then some r2 else none
      | [] => none
    else if c == sqc then
      match r.dropWhile (fun x => x != sqc) with
      | x :: r2 => if x == sqc then some r2 else none
      | [] => none
    else if c == lbrace then
      braceBody (r.length + 1) 2 r
    else none

/-- The optional value part `(?:\s*=\s*value)?` of one attribute of
`kMarkupPattern`: consumed when it matches, otherwise nothing is consumed. -/
def valueOpt (cs : List Char) : List Char :=
  match cs.dropWhile jsWs with
  | c :: r2 =>
    if c == '=' then
      match matchValue (r2.dropWhile jsWs) with
      | some r4 => r4
      | none => cs
    else cs
  | [] => cs

/-- One iteration `\s+[^=<>/\s]+(?:\s*=\s*value)?` of the attribute group of
`kMarkupPattern`. -/
def attrIter (cs : List Char) : Option (List Char) :=
  if (cs.takeWhile jsWs).isEmpty then none
  else
    let r1 := cs.dropWhile jsWs
    if (r1.takeWhile attrNameChar).isEmpty then none
    else some (valueOpt (r1.dropWhile attrNameChar))

/-- The attribute group star of `kMarkupPattern`.  `fuel ≥ cs.length` gives the
regex behaviour (each iteration consumes at least two characters). -/
def attrStar : Nat → List Char → List Char
  | 0, cs => cs
  | fuel + 1, cs =>
    match attrIter cs with
    | some r => attrStar fuel r
    | none => cs

/-- The part of `kMarkupPattern` after `<\/?`: a letter, then `[A-Za-z0-9]*`,
the attribute group star, `\s*`, and finally `\/?>`.  Returns the suffix after
the match.  The character classes involved are pairwise disjoint at every
boundary, so this greedy scan is exactly the regex's backtracking behaviour. -/
def tagAfterLt (cs : List Char) : Option (List Char) :=
  match cs with
  | [] => none
  | c :: r =>
    if c.isAlpha then
      let r2 := r.dropWhile Char.isAlphanum
      let r3 := attrStar (r2.length + 1) r2
      match r3.dropWhile jsWs with
      | '/' :: '>' :: rest => some rest
      | '>' :: rest => some rest
      | _ => none
    else none

/-- Whether `kMarkupPattern` matches at the start of `cs`; returns the suffix
after the match. -/
def matchTagAt (cs : List Char) : Option (List Char) :=
  match cs with
  | '<' :: '/' :: r => tagAfterLt r
  | '<' :: r => tagAfterLt r
  | _ => none

/-- Leftmost `kMarkupPattern` match in `cs`: its start offset and length. -/
def findTag : List Char → Option (Nat × Nat)
  | [] => none
  | cs@(_ :: r) =>
    match matchTagAt cs with
    | some rest => some (0, cs.length - rest.length)
    | none => (findTag r).map (fun p => (p.1 + 1, p.2))

/-- `kMarkupPattern.exec(data)` for a `/g` regex with cursor `li`
(`lastIndex`): search from `li`; on a hit return the match's `[start, stop)`
span and set the cursor to `stop`; on a miss return no match and reset the
cursor to `0`. -/
def execTag (data : List Char) (li : Nat) : Option (Nat × Nat) × Nat :=
  if li > data.length then (none, 0)
  else
    match findTag (data.drop li) with
    | some (off, len) => (some (li + off, li + off + len), li + off + len)
    | none => (none, 0)

/-- A tree node: `TextNode` with its `text`, or `HTMLElement` with `tagName`,
parsed `attrs`, `rawAttrs` and `childNodes` (html-parser.js lines 14–50; the
display attributes `id`/`classNames` are derived from `attrs` and never read
by the translator, so they are not stored separately). -/
inductive JNode where
  | text (s : List Char)
  | elem (tag : List Char) (attrs : List (List Char × List Char))
      (rawAttrs : List Char) (children : List JNode)

/-- One open element on the builder's stack: its data and the children
collected so far.  The bottom frame is the synthetic root, whose `tag` is
`none` (JS `null`). -/
structure Frame where
  tag : Option (List Char)
  attrs : List (List Char × List Char)
  rawAttrs : List Char
  children : List JNode

/-- The element a completed frame denotes. -/
def frameElem (f : Frame) : JNode :=
  JNode.elem (f.tag.getD []) f.attrs f.rawAttrs f.children

/-- The string JS produces for `currentParent.tagName` inside
`match[0].includes(...)`: the tag name, or `"null"` for the root, since JS
coerces `null` to the string `"null"` there. -/
def tagNameStr (f : Frame) : List Char :=
  match f.tag with
  | some t => t
  | none => lchars "null"

/-- The state of `parse`'s loop: the open-tag stack (top first), whether
`currentParent` still aliases the top of the stack (`parse` sets
`currentParent = stack.back` after a pop, and JS arrays have no `back`
property, so from then on `currentParent` is `undefined`, modelled by
`currOk = false`), and the root frame if it was itself popped (the `root`
variable keeps the tree alive even when it leaves the stack). -/
structure BState where
  frames : List Frame
  currOk : Bool
  rootDone : Option Frame

/-- How `parse` aborts: the explicit `throw Error("Input string label can't be
closed")`, or a JS `TypeError` from dereferencing the `undefined`
`currentParent`.  `fuel` marks exhaustion of the loop bound and is unreachable
for the fuel `parseFrom` supplies. -/
inductive PErr
  | unbalanced
  | typeErr
  | fuel
  deriving DecidableEq

/-- `currentParent.appendChild(node)`: appends to the top frame's children;
`none` models the TypeError raised when `currentParent` is `undefined`. -/
def appendCurr (st : BState) (n : JNode) : Option BState :=
  if st.currOk then
    match st.frames with
    | f :: rest =>
      some { st with frames := { f with children := f.children ++ [n] } :: rest }
    | [] => none
  else none

/-- Result of processing one tag token. -/
inductive StepRes
  | next (st : BState)
  | fail (e : PErr)

/-- Processing of one matched tag token by `parse` (html-parser.js lines
127–144): for a close token, read `currentParent.tagName` (TypeError when
`currentParent` is `undefined`), test `match[0].includes(currentParent.tagName)`,
and on success pop the stack and set `currentParent = stack.back` (which is
`undefined`); otherwise throw.  For an open or self-closing token, parse the
props, append a new element to `currentParent`, and for a plain open tag make
it the new current parent and push it. -/
def processToken (st : BState) (tok : List Char) : StepRes :=
  let info := handleJSXTag tok
  if info.closed then
    if st.currOk then
      match st.frames with
      | f :: rest =>
        if containsL tok (tagNameStr f) then
          match rest with
          | g :: rest2 =>
            StepRes.next ⟨{ g with children := g.children ++ [frameElem f] } :: rest2,
              false, st.rootDone⟩
          | [] => StepRes.next ⟨[], false, some f⟩
        else StepRes.fail PErr.unbalanced
      | [] => StepRes.fail PErr.typeErr
    else StepRes.fail PErr.typeErr
  else
    let attrs := parseProps info.props
    if info.isSelfClosed then
      match appendCurr st (JNode.elem info.tagName attrs info.props []) with
      | some st2 => StepRes.next st2
      | none => StepRes.fail PErr.typeErr
    else
      if st.currOk then
        match st.frames with
        | _ :: _ =>
          StepRes.next { st with frames := ⟨some info.tagName, attrs, info.props, []⟩ :: st.frames }
        | [] => StepRes.fail PErr.typeErr
      else StepRes.fail PErr.typeErr

/-- Attach every still-open frame to its parent below (those elements were
appended to their parents by reference when opened, with the children
collected so far), leaving the root's child list. -/
def collapseFrames : List Frame → List JNode
  | [] => []
  | f :: rest =>
    (rest.foldl (fun acc g => { g with children := g.children ++ [frameElem acc] }) f).children

/-- `parse`'s result: the root's children, or the raised error. -/
inductive PRes
  | ok (roots : List JNode)
  | err (e : PErr)

/-- The tree `parse` returns when its loop ends. -/
def finishParse (st : BState) : List JNode :=
  match st.rootDone with
  | some f => f.children
  | none => collapseFrames st.frames

/-- JS `data.substring(a, b)` for `a ≤ b`. -/
def sliceL (data : List Char) (a b : Nat) : List Char := (data.take b).drop a

/-- The `for (let match; (match = kMarkupPattern.exec(data)); )` loop of
`parse` (html-parser.js lines 105–148).  `ltp` is `lastTextPos` (`none` for the
initial `-1`), `li` the regex's shared `lastIndex` cursor.  Interleaved text is
wrapped in a `TextNode` and appended before the token is processed; errors
abort with the cursor as the regex left it.  `fuel ≥ data.length + 1` is never
exhausted, since every match advances the cursor by at least three. -/
def parseLoop : Nat → List Char → Option Nat → BState → Nat → PRes × Nat
  | 0, _, _, _, li => (PRes.err PErr.fuel, li)
  | fuel + 1, data, ltp, st, li =>
    match execTag data li with
    | (none, li2) => (PRes.ok (finishParse st), li2)
    | (some (start, stop), li2) =>
      let tok := sliceL data start stop
      let st1? :=
        match ltp with
        | some p =>
          if p < start then appendCurr st (JNode.text (sliceL data p start)) else some st
        | none => some st
      match st1? with
      | none => (PRes.err PErr.typeErr, li2)
      | some st1 =>
        match processToken st1 tok with
        | StepRes.fail e => (PRes.err e, li2)
        | StepRes.next st2 => parseLoop fuel data (some stop) st2 li2

/-- The root element `new HTMLElement(null, {})` of `parse`. -/
def rootFrame : Frame := ⟨none, [], [], []⟩

/-- `parse(data)` with the shared `kMarkupPattern.lastIndex` cursor made
explicit: `li` is the cursor value left by earlier invocations (0 for a fresh
module), and the returned `Nat` is the cursor after this invocation. -/
def parseFrom (li : Nat) (data : List Char) : PRes × Nat :=
  parseLoop (data.length + 1) data none ⟨[rootFrame], true, none⟩ li

/-- Leftmost match of `JSX_INTERPOLATION` (`/\x7b([a-zA-Z0-9]+)\x7d/g`) in `cs`:
its start offset and the captured identifier.  On failure at one position the
regex engine retries at the next position. -/
def findMarker : List Char → Option (Nat × List Char)
  | [] => none
  | c :: r =>
    let shifted := (findMarker r).map (fun p => (p.1 + 1, p.2))
    if c == lbrace then
      match r.takeWhile Char.isAlphanum, r.dropWhile Char.isAlphanum with
      | [], _ => shifted
      | idp, x :: _ =>
        if x == rbrace then some (0, idp) else shifted
      | _, [] => shifted
    else shifted

/-- The test `rawText.match(/^\x7b[^\x7d]+\x7d$/)` of `parseText`: the whole
string is one brace pair with a non-empty body free of closing braces. -/
def pureMarker (l : List Char) : Bool :=
  l.head? == some lbrace && l.getLast? == some rbrace &&
    (let mid := (l.dropLast).drop 1
     !mid.isEmpty && mid.all (fun c => c != rbrace))

/-- The `while ((interpolation = JSX_INTERPOLATION.exec(rawText)))` loop of
`parseText` (unnamed file lines 68–82): at each marker, push the trimmed text
before it (backquoted) when non-empty, push the identifier, and advance
`lastIndex` past the marker.  Returns the collected parts and the final
`lastIndex`.  `fuel ≥ rawText.length + 1` is never exhausted. -/
def interpLoop : Nat → List Char → Nat → List (List Char) → List (List Char) × Nat
  | 0, _, li, parts => (parts, li)
  | fuel + 1, rawText, li, parts =>
    match findMarker (rawText.drop li) with
    | none => (parts, li)
    | some (off, idp) =>
      let pos := li + off
      let beforeText := jsTrimL (sliceL rawText li pos)
      let parts1 := if beforeText.isEmpty then parts else parts ++ [bq :: beforeText ++ [bq]]
      interpLoop fuel rawText (pos + idp.length + 2) (parts1 ++ [idp])

/-- `parseText` (unnamed file lines 54–95) on char lists: collapse whitespace
runs and trim; if the text holds no interpolation marker, return it
backquoted; if it is exactly one marker, return the bare identifier
(`slice(1, -1)`); otherwise emit trimmed literal spans (backquoted) and
identifiers, comma-joined, dropping spans that trim to nothing. -/
def parseTextL (raw : List Char) : List Char :=
  let rawText := jsTrimL (collapseWs raw)
  match findMarker rawText with
  | none => bq :: rawText ++ [bq]
  | some _ =>
    if pureMarker rawText then (rawText.dropLast).drop 1
    else
      let pl := interpLoop (rawText.length + 1) rawText 0 []
      let remaining := jsTrimL (rawText.drop pl.2)
      let parts := if remaining.isEmpty then pl.1 else pl.1 ++ [bq :: remaining ++ [bq]]
      List.intercalate [','] parts

/-- `parseText` on strings. -/
def parseText (raw : String) : String := ⟨parseTextL raw.data⟩

/-- The `isLowerCase` test of `translate` (unnamed file lines 32–34): JS
`"a" <= str[0] && str[0] <= "z"`; on the empty string `str[0]` is `undefined`
and both comparisons are false. -/
def isLowerCase (s : List Char) : Bool :=
  match s with
  | c :: _ => 'a' ≤ c && c ≤ 'z'
  | [] => false

/-- The tag argument of the generated call: `isLowerCase(tagName) ?
`"${tagName}"` : tagName`. -/
def tagExpr (tag : List Char) : List Char :=
  if isLowerCase tag then '"' :: tag ++ ['"'] else tag

/-- `stringify` (unnamed file lines 41–50): render the attribute mapping in
insertion order as `\x7bkey1:value1,key2:value2\x7d`, values embedded verbatim. -/
def stringify (props : List (List Char × List Char)) : List Char :=
  lbrace :: List.intercalate [','] (props.map (fun p => p.1 ++ ':' :: p.2)) ++ [rbrace]

mutual
/-- `translate` (unnamed file lines 8–39): children are translated first and
the `null` results filtered out; a text node yields `null` when its text trims
to nothing, else `parseText`; an element yields
`MiniReact.createElement(tag,attrs,children)` where the JS template literal
interpolates the children array as its elements joined by commas (no
brackets, empty array → empty string). -/
def translateNode : JNode → Option (List Char)
  | JNode.text s => if (jsTrimL s).isEmpty then none else some (parseTextL s)
  | JNode.elem tag attrs _rawAttrs children =>
    some (lchars "MiniReact.createElement(" ++ tagExpr tag ++ ',' :: stringify attrs ++
      ',' :: List.intercalate [','] (translateNodeList children) ++ [')'])

/-- `root.childNodes.map((node) => translate(node)).filter((node) => node != null)`. -/
def translateNodeList : List JNode → List (List Char)
  | [] => []
  | n :: ns =>
    match translateNode n with
    | none => translateNodeList ns
    | some s => s :: translateNodeList ns
end

/-- One span of `parseJSX` (unnamed file lines 97–107): parse the matched
markup from a fresh tree and translate the root's first child.  `none` models
the parse throwing (no expression is produced for the span). -/
def translateSpan (s : List Char) : Option (List Char) :=
  match (parseFrom 0 s).1 with
  | PRes.ok (c :: _) => translateNode c
  | _ => none

/-- Characters that `parseProps` accumulates into the current key while in
default mode with no value being parsed: anything but `=`, a double or single
quote, or an opening brace (note that a space is also key material there). -/
def keyChar (c : Char) : Bool :=
  !(c == '=' || c == '"' || c == sqc || c == lbrace)

/-- Key characters that are moreover not whitespace and not a closing brace:
the well-behaved attribute-name characters used to state the attribute
theorems. -/
def plainChar (c : Char) : Bool :=
  keyChar c && !(c == rbrace) && !(jsWs c)

/-! ### Auxiliary lemmas about the JS string primitives -/

theorem dropWhile_eq_self_of_head (p : Char → Bool) (l : List Char)
    (h : ∀ hd, l.head? = some hd → p hd = false) : l.dropWhile p = l := by
  cases l with
  | nil => rfl
  | cons a t => rw [List.dropWhile_cons, h a rfl]; simp

theorem jsTrimL_eq_self (l : List Char)
    (h1 : ∀ hd, l.head? = some hd → jsWs hd = false)
    (h2 : ∀ lst, l.getLast? = some lst → jsWs lst = false) : jsTrimL l = l := by
  unfold jsTrimL
  rw [dropWhile_eq_self_of_head _ _ h1]
  rw [dropWhile_eq_self_of_head _ _ (fun hd hh => h2 hd (by rwa [List.head?_reverse] at hh))]
  exact List.reverse_reverse l

theorem jsTrimL_of_all_ws (s : List Char) (h : ∀ c ∈ s, jsWs c = true) : jsTrimL s = [] := by
  unfold jsTrimL
  rw [List.dropWhile_eq_nil_iff.mpr h]
  rfl

theorem takeWhile_append_all (p : Char → Bool) (xs : List Char) (y : Char) (ys : List Char)
    (h : ∀ x ∈ xs, p x = true) (hy : p y = false) :
    (xs ++ y :: ys).takeWhile p = xs := by
  induction xs with
  | nil => simp [List.takeWhile_cons, hy]
  | cons a t ih =>
    have ha := h a (by simp)
    simp only [List.cons_append, List.takeWhile_cons, ha, if_true]
    rw [ih (fun x hx => h x (by simp [hx]))]

theorem dropWhile_append_all (p : Char → Bool) (xs : List Char) (y : Char) (ys : List Char)
    (h : ∀ x ∈ xs, p x = true) (hy : p y = false) :
    (xs ++ y :: ys).dropWhile p = y :: ys := by
  induction xs with
  | nil => simp [List.dropWhile_cons, hy]
  | cons a t ih =>
    have ha := h a (by simp)
    simp only [List.cons_append, List.dropWhile_cons, ha, if_true]
    exact ih (fun x hx => h x (by simp [hx]))

/-! ### Claim theorems -/

/-- C1: the claim states that after every token processed without error the
current parent equals the top of the open-tag stack.  In the code, processing
a matching close tag executes `currentParent = stack.back`, and JS arrays have
no `back` property, so `currentParent` becomes `undefined` while the stack
still has the popped frame's parent on top: the invariant is broken, and the
very next token (here `<p>`) makes `parse` throw a TypeError instead of
appending to the stack top. -/
theorem c1_close_breaks_stack_link :
    processToken ⟨[⟨some (lchars "div"), [], [], []⟩, rootFrame], true, none⟩ (lchars "</div>") =
      StepRes.next ⟨[⟨none, [], [], [JNode.elem (lchars "div") [] [] []]⟩], false, none⟩ ∧
    (parseFrom 0 (lchars "<div></div><p></p>")).1 = PRes.err PErr.typeErr :=
  ⟨rfl, rfl⟩

/-- C4: the claim's nested input `<div><span>a</span><span>b</span></div>`
never reaches translation: after `</span>` the current parent is `undefined`
(`stack.back`), so appending the second `<span>` throws a TypeError.  The
prefix up to and including the first close tag still parses. -/
theorem c4_nested_input_crashes :
    (parseFrom 0 (lchars "<div><span>a</span><span>b</span></div>")).1 = PRes.err PErr.typeErr ∧
    (parseFrom 0 (lchars "<div><span>a</span>")).1 =
      PRes.ok [JNode.elem (lchars "div") [] []
        [JNode.elem (lchars "span") [] [] [JNode.text (lchars "a")]]] :=
  ⟨rfl, rfl⟩

/-- C3 counterexample: the transform of `<Foo bar="1" />` is
`MiniReact.createElement(Foo,\x7bbar:"1"\x7d,)`, not the claimed
`createElement(Foo,\x7bbar:"1"\x7d,[])`: the generated call is prefixed with
`MiniReact.` and the children are interpolated without square brackets (an
empty child array renders as the empty string). -/
theorem c3_createElement_shape_counterexample :
    translateSpan (lchars "<Foo bar=\"1\" />") =
      some (lchars "MiniReact.createElement(Foo,\x7bbar:\"1\"\x7d,)") ∧
    translateSpan (lchars "<Foo bar=\"1\" />") ≠
      some (lchars "createElement(Foo,\x7bbar:\"1\"\x7d,[])") := by
  refine ⟨rfl, ?_⟩
  rw [show translateSpan (lchars "<Foo bar=\"1\" />") =
    some (lchars "MiniReact.createElement(Foo,\x7bbar:\"1\"\x7d,)") from rfl]
  decide

/-- C3 amended: every translated element has the shape
`MiniReact.createElement(<tagExpr>,<attrsExpr>,<children comma-joined>)`, the
children list rendered as the JS array-to-string coercion does — elements
joined by commas with no surrounding brackets, the empty list as the empty
string; for `<Foo bar="1" />` the transform yields exactly
`MiniReact.createElement(Foo,\x7bbar:"1"\x7d,)`. -/
theorem c3_createElement_actual_shape :
    (∀ (tag : List Char) (attrs : List (List Char × List Char)) (raw : List Char)
      (cs : List JNode),
      translateNode (JNode.elem tag attrs raw cs) =
        some (lchars "MiniReact.createElement(" ++ tagExpr tag ++ ',' :: stringify attrs ++
          ',' :: List.intercalate [','] (translateNodeList cs) ++ [')'])) ∧
    translateSpan (lchars "<Foo bar=\"1\" />") =
      some (lchars "MiniReact.createElement(Foo,\x7bbar:\"1\"\x7d,)") ∧
    List.intercalate [','] (translateNodeList []) = [] :=
  ⟨fun _ _ _ _ => rfl, rfl, rfl⟩

/-- C2 counterexample: for `<div><span></spanx>` the close tag's name `spanx`
differs from the current parent's tag name `span`, yet no error is raised —
`parse` only tests `match[0].includes(currentParent.tagName)`, and
`"</spanx>"` contains `"span"`, so the stack is popped and the parse
succeeds. -/
theorem c2_close_mismatch_not_raised :
    (parseFrom 0 (lchars "<div><span></spanx>")).1 =
      PRes.ok [JNode.elem (lchars "div") [] [] [JNode.elem (lchars "span") [] [] []]] ∧
    (handleJSXTag (lchars "</spanx>")).tagName = lchars "spanx" ∧
    lchars "spanx" ≠ lchars "span" :=
  ⟨rfl, rfl, by decide⟩

/-- C2 amended: with the current parent defined, processing a close-tag token
raises the fatal error iff the token's full text does not contain the current
parent's tag name as a substring (name equality is not what is tested, so
mismatched names whose text contains the parent's name slip through); the
unbalanced input `<div><span></div>` does raise the error, and no tree is
returned for that span. -/
theorem c2_close_error_iff_not_contains :
    (∀ (st : BState) (f : Frame) (rest : List Frame) (tok : List Char),
      st.currOk = true → st.frames = f :: rest → (handleJSXTag tok).closed = true →
      (processToken st tok = StepRes.fail PErr.unbalanced ↔
        containsL tok (tagNameStr f) = false)) ∧
    (parseFrom 0 (lchars "<div><span></div>")).1 = PRes.err PErr.unbalanced := by
  refine ⟨?_, rfl⟩
  intro st f rest tok hok hfr hcl
  simp only [processToken, hcl, if_true, hok, hfr]
  cases h : containsL tok (tagNameStr f) with
  | false => simp [h]
  | true => cases rest <;> simp [h]

/-- C2 witness: instantiating the amended close-tag law at a concrete state
(current parent `span`) and the token `</div>`. -/
theorem c2_close_error_iff_witness :
    ((⟨[⟨some (lchars "span"), [], [], []⟩], true, none⟩ : BState).currOk = true) ∧
    ((processToken ⟨[⟨some (lchars "span"), [], [], []⟩], true, none⟩ (lchars "</div>") =
        StepRes.fail PErr.unbalanced) ↔
      containsL (lchars "</div>") (tagNameStr ⟨some (lchars "span"), [], [], []⟩) = false) :=
  ⟨rfl, c2_close_error_iff_not_contains.1
    ⟨[⟨some (lchars "span"), [], [], []⟩], true, none⟩
    ⟨some (lchars "span"), [], [], []⟩ [] (lchars "</div>") rfl rfl (by decide)⟩

/-- C7: a text node whose content is whitespace-only translates to `null`
(`root.text.trim() === ""`), and the parent's child filter
(`.filter((node) => node != null)`) removes it, so the parent's translation is
unchanged by its presence anywhere in the child list. -/
theorem c7_whitespace_text_no_contribution :
    ∀ (s : List Char), (∀ c ∈ s, jsWs c = true) →
      translateNode (JNode.text s) = none ∧
      ∀ (tag : List Char) (attrs : List (List Char × List Char)) (raw : List Char)
        (xs ys : List JNode),
        translateNode (JNode.elem tag attrs raw (xs ++ JNode.text s :: ys)) =
          translateNode (JNode.elem tag attrs raw (xs ++ ys)) := by
  intro s h
  have hnone : translateNode (JNode.text s) = none := by
    simp [translateNode, jsTrimL_of_all_ws s h]
  refine ⟨hnone, ?_⟩
  intro tag attrs raw xs ys
  have hl : translateNodeList (xs ++ JNode.text s :: ys) = translateNodeList (xs ++ ys) := by
    induction xs with
    | nil => simp [translateNodeList, hnone]
    | cons a as ih =>
      simp only [List.cons_append, translateNodeList]
      cases h' : translateNode a <;> simp [List.append_eq, h', ih]
  simp [translateNode, hl]

/-- C7 witness: a two-space text node contributes nothing to a `div` parent. -/
theorem c7_whitespace_text_witness :
    (∀ c ∈ lchars "  ", jsWs c = true) ∧
    translateNode (JNode.text (lchars "  ")) = none ∧
    translateNode (JNode.elem (lchars "div") [] [] [JNode.text (lchars "  ")]) =
      translateNode (JNode.elem (lchars "div") [] [] []) :=
  ⟨by decide, (c7_whitespace_text_no_contribution (lchars "  ") (by decide)).1,
    (c7_whitespace_text_no_contribution (lchars "  ") (by decide)).2 (lchars "div") [] [] [] []⟩

theorem execTag_none_cursor (data : List Char) (li : Nat)
    (h : (execTag data li).1 = none) : execTag data li = (none, 0) := by
  by_cases hli : li > data.length
  · simp [execTag, hli]
  · rcases hft : findTag (data.drop li) with _ | ⟨off, len⟩
    · simp [execTag, hli, hft]
    · exfalso
      simp [execTag, hli, hft] at h

theorem parseLoop_ok_cursor :
    ∀ (fuel : Nat) (data : List Char) (ltp : Option Nat) (st : BState) (li : Nat)
      (r : List JNode),
      (parseLoop fuel data ltp st li).1 = PRes.ok r → (parseLoop fuel data ltp st li).2 = 0 := by
  intro fuel
  induction fuel with
  | zero =>
    intro data ltp st li r h
    exact absurd h (by simp [parseLoop])
  | succ n ih =>
    intro data ltp st li r h
    simp only [parseLoop] at h ⊢
    rcases hex : execTag data li with ⟨mo, li2⟩
    rw [hex] at h
    cases mo with
    | none =>
      have h0 : execTag data li = (none, 0) := execTag_none_cursor data li (by rw [hex])
      have h2 : (0 : Nat) = li2 := congrArg Prod.snd (h0.symm.trans hex)
      simpa using h2.symm
    | some se =>
      rcases se with ⟨start, stop⟩
      dsimp only at h ⊢
      rcases hst1 : (match ltp with
        | some p =>
          if p < start then appendCurr st (JNode.text (sliceL data p start)) else some st
        | none => some st) with _ | st1
      · rw [hst1] at h
        exact absurd h (by simp)
      · rw [hst1] at h ⊢
        dsimp only at h ⊢
        split at h
        · exact absurd h (by simp)
        · rename_i st2 heq
          exact ih data (some stop) st2 li2 r h

/-- C10 counterexample: the module-level `kMarkupPattern` is a `/g` regex whose
`lastIndex` survives across calls to `parse`.  A run that throws (unbalanced
`<div><span></div>`) leaves the cursor at 17; the next run on `<div></div>`
then sees no match at all and returns an empty tree, while a fresh run on the
same text returns the `div` element: the same input does not fail or succeed
identically after an earlier failed run. -/
theorem c10_stale_cursor_counterexample :
    parseFrom 0 (lchars "<div><span></div>") = (PRes.err PErr.unbalanced, 17) ∧
    parseFrom 17 (lchars "<div></div>") = (PRes.ok [], 0) ∧
    parseFrom 0 (lchars "<div></div>") =
      (PRes.ok [JNode.elem (lchars "div") [] [] []], 0) ∧
    (PRes.ok ([] : List JNode), (0 : Nat)) ≠
      (PRes.ok [JNode.elem (lchars "div") [] [] []], (0 : Nat)) := by
  refine ⟨rfl, rfl, rfl, ?_⟩
  simp

/-- C10 amended: the transform is a pure function of the source text and the
shared regex cursor; a run that completes normally always resets the cursor to
0, so any run performed after only successfully completed runs behaves exactly
like a run on a fresh module.  (Only a run aborted by a parse error leaves a
stale cursor behind.) -/
theorem c10_deterministic_after_clean_runs :
    ∀ (d1 d2 : List Char) (r : List JNode),
      (parseFrom 0 d1).1 = PRes.ok r →
      (parseFrom 0 d1).2 = 0 ∧ parseFrom (parseFrom 0 d1).2 d2 = parseFrom 0 d2 := by
  intro d1 d2 r h
  have h0 : (parseFrom 0 d1).2 = 0 := parseLoop_ok_cursor _ _ _ _ _ _ h
  exact ⟨h0, by rw [h0]⟩

/-- C10 witness: after a successful run on `<a/>`, a run on `<b/>` is
indistinguishable from a fresh run. -/
theorem c10_reset_witness :
    (parseFrom 0 (lchars "<a/>")).1 = PRes.ok [JNode.elem (lchars "a") [] [] []] ∧
    (parseFrom 0 (lchars "<a/>")).2 = 0 ∧
    parseFrom (parseFrom 0 (lchars "<a/>")).2 (lchars "<b/>") = parseFrom 0 (lchars "<b/>") :=
  ⟨rfl, (c10_deterministic_after_clean_runs (lchars "<a/>") (lchars "<b/>") _ rfl).1,
    (c10_deterministic_after_clean_runs (lchars "<a/>") (lchars "<b/>") _ rfl).2⟩

theorem char_ne_rbrace_of_alnum (c : Char) (h : c.isAlphanum = true) : (c == rbrace) = false := by
  cases hc : c == rbrace
  · rfl
  · rw [show c = rbrace from by exact beq_iff_eq.mp hc] at h
    exact absurd h (by decide)

/-- C6: a text whose collapsed-and-trimmed content is exactly one
interpolation marker over a non-empty alphanumeric identifier takes the "pure
expression" shortcut of `parseText`: the result is the bare identifier,
without backquotes. -/
theorem c6_pure_marker_shortcut :
    ∀ (raw id : List Char), id ≠ [] → (∀ c ∈ id, c.isAlphanum = true) →
      jsTrimL (collapseWs raw) = lbrace :: id ++ [rbrace] →
      parseTextL raw = id := by
  intro raw id hne hal heq
  have ht : (id ++ [rbrace]).takeWhile Char.isAlphanum = id :=
    takeWhile_append_all _ _ _ [] hal (by decide)
  have hd : (id ++ [rbrace]).dropWhile Char.isAlphanum = [rbrace] :=
    dropWhile_append_all _ _ _ [] hal (by decide)
  have hfm : findMarker (lbrace :: id ++ [rbrace]) = some (0, id) := by
    simp only [findMarker, beq_self_eq_true, if_true]
    rcases id with _ | ⟨c, cs⟩
    · exact absurd rfl hne
    · simp only [List.append_eq]
      rw [ht, hd]
      simp
  have hmid : ((lbrace :: id ++ [rbrace]).dropLast).drop 1 = id := by
    rw [show lbrace :: id ++ [rbrace] = (lbrace :: id) ++ [rbrace] from rfl,
      List.dropLast_concat]
    rfl
  have hpm : pureMarker (lbrace :: id ++ [rbrace]) = true := by
    have hg : (lbrace :: id ++ [rbrace]).getLast? = some rbrace := by
      rw [show lbrace :: id ++ [rbrace] = (lbrace :: id) ++ [rbrace] from rfl]
      exact List.getLast?_concat _
    have hie : id.isEmpty = false := by
      rcases id with _ | ⟨c, cs⟩
      · exact absurd rfl hne
      · rfl
    have hall : id.all (fun c => c != rbrace) = true := by
      rw [List.all_eq_true]
      intro c hc
      simpa using char_ne_rbrace_of_alnum c (hal c hc)
    simp only [pureMarker, List.head?_cons, hg, hmid, beq_self_eq_true, Bool.true_and, hie,
      Bool.not_false, hall, Bool.and_true]
    rfl
  simp only [parseTextL, heq, hfm, hpm, if_true]
  exact hmid

theorem getLast?_imp_mem (l : List Char) (a : Char) (h : l.getLast? = some a) : a ∈ l := by
  rw [← List.head?_reverse] at h
  have hm : a ∈ l.reverse := by
    cases hr : l.reverse with
    | nil => rw [hr] at h; simp at h
    | cons b t =>
      rw [hr, List.head?_cons] at h
      injection h with h'
      simp [h']
  exact List.mem_reverse.mp hm

theorem jsTrimL_of_no_ws (l : List Char) (h : ∀ c ∈ l, jsWs c = false) : jsTrimL l = l := by
  apply jsTrimL_eq_self
  · intro hd hh
    cases l with
    | nil => simp at hh
    | cons a t =>
      rw [List.head?_cons] at hh
      injection hh with hh'
      exact hh' ▸ h a (by simp)
  · intro lst hl
    exact h lst (getLast?_imp_mem l lst hl)

theorem keyChar_not_eq (c : Char) (h : keyChar c = true) :
    (c == '=') = false ∧ (c == '"') = false ∧ (c == sqc) = false ∧ (c == lbrace) = false := by
  simp only [keyChar, Bool.not_eq_true', Bool.or_eq_false_iff] at h
  exact ⟨h.1.1.1, h.1.1.2, h.1.2, h.2⟩

theorem plainChar_spec (c : Char) (h : plainChar c = true) :
    keyChar c = true ∧ (c == rbrace) = false ∧ jsWs c = false := by
  simp only [plainChar, Bool.and_eq_true, Bool.not_eq_true'] at h
  exact ⟨h.1.1, h.1.2, h.2⟩

theorem ppStep_key (st : APState) (c : Char)
    (hq : st.inQuotes = false) (hb : st.inBraces = false) (hp : st.isParsingValue = false)
    (hc : keyChar c = true) :
    ppStep st c = { st with key := st.key ++ [c] } := by
  obtain ⟨h1, h2, h3, h4⟩ := keyChar_not_eq c hc
  simp [ppStep, hq, hb, hp, h1, h2, h3, h4]

theorem ppStep_quote_char (st : APState) (c : Char) (hq : st.inQuotes = true)
    (hc : (c == st.quoteType) = false) :
    ppStep st c = { st with value := st.value ++ [c] } := by
  simp [ppStep, hq, hc]

theorem ppStep_brace_char (st : APState) (c : Char) (hq : st.inQuotes = false)
    (hb : st.inBraces = true) (hc : (c == rbrace) = false) :
    ppStep st c = { st with value := st.value ++ [c] } := by
  simp [ppStep, hq, hb, hc]

theorem ppFold_key (ks : List Char) (st : APState)
    (hq : st.inQuotes = false) (hb : st.inBraces = false) (hp : st.isParsingValue = false)
    (h : ∀ c ∈ ks, keyChar c = true) :
    ks.foldl ppStep st = { st with key := st.key ++ ks } := by
  induction ks generalizing st with
  | nil => simp
  | cons c cs ih =>
    rw [List.foldl_cons, ppStep_key st c hq hb hp (h c (by simp))]
    rw [ih { st with key := st.key ++ [c] } hq hb hp (fun x hx => h x (by simp [hx]))]
    simp

theorem ppFold_quote (vs : List Char) (st : APState) (hq : st.inQuotes = true)
    (h : ∀ c ∈ vs, (c == st.quoteType) = false) :
    vs.foldl ppStep st = { st with value := st.value ++ vs } := by
  induction vs generalizing st with
  | nil => simp
  | cons c cs ih =>
    rw [List.foldl_cons, ppStep_quote_char st c hq (h c (by simp))]
    rw [ih { st with value := st.value ++ [c] } hq (fun x hx => h x (by simp [hx]))]
    simp

theorem ppFold_brace (vs : List Char) (st : APState) (hq : st.inQuotes = false)
    (hb : st.inBraces = true) (h : ∀ c ∈ vs, (c == rbrace) = false) :
    vs.foldl ppStep st = { st with value := st.value ++ vs } := by
  induction vs generalizing st with
  | nil => simp
  | cons c cs ih =>
    rw [List.foldl_cons, ppStep_brace_char st c hq hb (h c (by simp))]
    rw [ih { st with value := st.value ++ [c] } hq hb (fun x hx => h x (by simp [hx]))]
    simp

theorem jsTrimL_braced (e : List Char) :
    jsTrimL (lbrace :: e ++ [rbrace]) = lbrace :: e ++ [rbrace] := by
  apply jsTrimL_eq_self
  · intro hd hh
    rw [List.cons_append, List.head?_cons] at hh
    injection hh with hh'
    rw [← hh']
    decide
  · intro lst hl
    rw [List.getLast?_concat] at hl
    injection hl with hl'
    rw [← hl']
    decide

theorem jsTrimL_quoted (s : List Char) :
    jsTrimL ('"' :: s ++ ['"']) = '"' :: s ++ ['"'] := by
  apply jsTrimL_eq_self
  · intro hd hh
    rw [List.cons_append, List.head?_cons] at hh
    injection hh with hh'
    rw [← hh']
    decide
  · intro lst hl
    rw [List.getLast?_concat] at hl
    injection hl with hl'
    rw [← hl']
    decide

theorem ppStore_braced (attrs : List (List Char × List Char)) (K e : List Char) :
    ppStore attrs K (lbrace :: e ++ [rbrace]) = insertAssoc attrs (jsTrimL K) (jsTrimL e) := by
  have hh : (((lbrace :: e) ++ [rbrace]).head? == some lbrace) = true := by
    rw [List.cons_append, List.head?_cons]
    simp
  simp only [ppStore, jsTrimL_braced, hh, if_true, List.dropLast_concat, List.drop_succ_cons,
    List.drop_zero]

theorem ppStore_quoted (attrs : List (List Char × List Char)) (K s : List Char) :
    ppStore attrs K ('"' :: s ++ ['"']) =
      insertAssoc attrs (jsTrimL K) ('"' :: s ++ ['"']) := by
  have hh : ((('"' :: s) ++ ['"']).head? == some lbrace) = false := by
    rw [List.cons_append, List.head?_cons]
    decide
  simp only [ppStore, jsTrimL_quoted, hh, Bool.false_eq_true, if_false]

theorem ppFold_braced_state (K e : List Char)
    (hKc : ∀ c ∈ K, keyChar c = true) (he : ∀ c ∈ e, (c == rbrace) = false) :
    (K ++ '=' :: lbrace :: e ++ [rbrace]).foldl ppStep ppInit =
      { ppInit with key := K, isParsingValue := true, value := lbrace :: e ++ [rbrace] } := by
  have s1 : K.foldl ppStep ppInit = { ppInit with key := K } := by
    rw [ppFold_key K ppInit rfl rfl rfl hKc]
    simp [ppInit]
  have st2 : ppStep { ppInit with key := K } '=' =
      { ppInit with key := K, isParsingValue := true } := rfl
  have st3 : ppStep { ppInit with key := K, isParsingValue := true } lbrace =
      { ppInit with key := K, isParsingValue := true, inBraces := true, value := [lbrace] } := rfl
  have s4 := ppFold_brace e
    { ppInit with key := K, isParsingValue := true, inBraces := true, value := [lbrace] }
    rfl rfl he
  have i1 : List.foldl ppStep ppInit (K ++ '=' :: lbrace :: e) =
      { ppInit with key := K, isParsingValue := true, inBraces := true,
                    value := lbrace :: e } := by
    rw [List.foldl_append, s1, List.foldl_cons, st2, List.foldl_cons, st3, s4]
    simp
  have st5 : ppStep
      { ppInit with key := K, isParsingValue := true, inBraces := true, value := lbrace :: e }
      rbrace =
      { ppInit with key := K, isParsingValue := true, value := lbrace :: e ++ [rbrace] } := rfl
  rw [List.foldl_append, i1, List.foldl_cons, st5, List.foldl_nil]

theorem ppFold_quoted_state (K s : List Char)
    (hKc : ∀ c ∈ K, keyChar c = true) (hs : ∀ c ∈ s, (c == '"') = false) :
    (K ++ '=' :: '"' :: s ++ ['"']).foldl ppStep ppInit =
      { ppInit with key := K, isParsingValue := true, quoteType := '"',
                    value := '"' :: s ++ ['"'] } := by
  have s1 : K.foldl ppStep ppInit = { ppInit with key := K } := by
    rw [ppFold_key K ppInit rfl rfl rfl hKc]
    simp [ppInit]
  have st2 : ppStep { ppInit with key := K } '=' =
      { ppInit with key := K, isParsingValue := true } := rfl
  have st2q : ppStep { ppInit with key := K, isParsingValue := true } '"' =
      { ppInit with key := K, isParsingValue := true, inQuotes := true, quoteType := '"',
                    value := ['"'] } := rfl
  have s4q := ppFold_quote s
    { ppInit with key := K, isParsingValue := true, inQuotes := true, quoteType := '"',
                  value := ['"'] } rfl hs
  have i1q : List.foldl ppStep ppInit (K ++ '=' :: '"' :: s) =
      { ppInit with key := K, isParsingValue := true, inQuotes := true, quoteType := '"',
                    value := '"' :: s } := by
    rw [List.foldl_append, s1, List.foldl_cons, st2, List.foldl_cons, st2q, s4q]
    simp
  have st5q : ppStep
      { ppInit with key := K, isParsingValue := true, inQuotes := true, quoteType := '"',
                    value := '"' :: s } '"' =
      { ppInit with key := K, isParsingValue := true, quoteType := '"',
                    value := '"' :: s ++ ['"'] } := rfl
  rw [List.foldl_append, i1q, List.foldl_cons, st5q, List.foldl_nil]

theorem parseProps_braced (K e : List Char)
    (hKc : ∀ c ∈ K, keyChar c = true) (hKtrim : jsTrimL K = K) (hKne : K.isEmpty = false)
    (he : ∀ c ∈ e, (c == rbrace) = false) :
    parseProps (K ++ '=' :: lbrace :: e ++ [rbrace]) = [(K, jsTrimL e)] := by
  simp only [parseProps, ppFold_braced_state K e hKc he]
  rw [hKtrim, jsTrimL_braced, hKne, List.cons_append]
  simp only [List.isEmpty_cons, Bool.not_false, Bool.and_self, if_true]
  rw [show ((lbrace :: (e ++ [rbrace])) : List Char) = lbrace :: e ++ [rbrace] from rfl,
    ppStore_braced, hKtrim]
  rfl

theorem parseProps_quoted (K s : List Char)
    (hKc : ∀ c ∈ K, keyChar c = true) (hKtrim : jsTrimL K = K) (hKne : K.isEmpty = false)
    (hs : ∀ c ∈ s, (c == '"') = false) :
    parseProps (K ++ '=' :: '"' :: s ++ ['"']) = [(K, '"' :: s ++ ['"'])] := by
  simp only [parseProps, ppFold_quoted_state K s hKc hs]
  rw [hKtrim, jsTrimL_quoted, hKne, List.cons_append]
  simp only [List.isEmpty_cons, Bool.not_false, Bool.and_self, if_true]
  rw [show ((('"' : Char) :: (s ++ ['"'])) : List Char) = '"' :: s ++ ['"'] from rfl,
    ppStore_quoted, hKtrim]
  rfl

/-- C9: an attribute value that is exactly a brace-wrapped expression is
stored with its outer braces stripped (the trimmed bare expression text); a
quoted value is stored with its quote characters included; and `stringify`
embeds the stored value verbatim — a quoted value keeps its quotes and is not
re-quoted. -/
theorem c9_attr_value_storage :
    ∀ (k e s : List Char), k ≠ [] → (∀ c ∈ k, plainChar c = true) →
      (∀ c ∈ e, (c == rbrace) = false) → (∀ c ∈ s, (c == '"') = false) →
      parseProps (k ++ '=' :: lbrace :: e ++ [rbrace]) = [(k, jsTrimL e)] ∧
      parseProps (k ++ '=' :: '"' :: s ++ ['"']) = [(k, '"' :: s ++ ['"'])] ∧
      stringify (parseProps (k ++ '=' :: '"' :: s ++ ['"'])) =
        lbrace :: (k ++ ':' :: '"' :: s ++ ['"']) ++ [rbrace] := by
  intro k e s hk hkp he hs
  have hkc : ∀ c ∈ k, keyChar c = true := fun c hc => (plainChar_spec c (hkp c hc)).1
  have hkw : ∀ c ∈ k, jsWs c = false := fun c hc => (plainChar_spec c (hkp c hc)).2.2
  have hktrim : jsTrimL k = k := jsTrimL_of_no_ws k hkw
  have hkne : k.isEmpty = false := by
    cases k with
    | nil => exact absurd rfl hk
    | cons a t => rfl
  have c1 := parseProps_braced k e hkc hktrim hkne he
  have c2 := parseProps_quoted k s hkc hktrim hkne hs
  refine ⟨c1, c2, ?_⟩
  rw [c2]
  simp [stringify, List.intercalate, List.intersperse]

/-- C9 witness: `bar={ y }` stores `y`; `bar="1"` stores `"1"` with its
quotes, and `stringify` renders `\x7bbar:"1"\x7d`. -/
theorem c9_attr_value_witness :
    (lchars "bar" ≠ [] ∧ (∀ c ∈ lchars "bar", plainChar c = true) ∧
      (∀ c ∈ lchars " y ", (c == rbrace) = false) ∧
      (∀ c ∈ lchars "1", (c == '"') = false)) ∧
    parseProps (lchars "bar" ++ '=' :: lbrace :: lchars " y " ++ [rbrace]) =
      [(lchars "bar", jsTrimL (lchars " y "))] ∧
    parseProps (lchars "bar" ++ '=' :: '"' :: lchars "1" ++ ['"']) =
      [(lchars "bar", '"' :: lchars "1" ++ ['"'])] ∧
    stringify (parseProps (lchars "bar" ++ '=' :: '"' :: lchars "1" ++ ['"'])) =
      lbrace :: (lchars "bar" ++ ':' :: '"' :: lchars "1" ++ ['"']) ++ [rbrace] :=
  ⟨⟨by decide, by decide, by decide, by decide⟩,
    c9_attr_value_storage (lchars "bar") (lchars " y ") (lchars "1")
      (by decide) (by decide) (by decide) (by decide)⟩

/-- C8 counterexample: in `a b="1"` the valueless attribute `a` is not
dropped — its text is absorbed into the following pair's key, which is stored
as `a b` (so neither `a` nor `b` is a stored key); and in `b="1" a` the
valueless attribute `a` is the final pair yet it is dropped (its value is
empty), contradicting both halves of the claim. -/
theorem c8_valueless_attr_counterexample :
    parseProps (lchars "a b=\"1\"") = [(lchars "a b", lchars "\"1\"")] ∧
    List.lookup (lchars "b") (parseProps (lchars "a b=\"1\"")) = none ∧
    List.lookup (lchars "a") (parseProps (lchars "a b=\"1\"")) = none ∧
    parseProps (lchars "b=\"1\" a") = [(lchars "b", lchars "\"1\"")] :=
  ⟨by decide, by decide, by decide, by decide⟩

/-- C8 amended: an attribute token with no `=` is never stored under its own
key.  If another pair follows it, its text and the separating space are
absorbed into the following pair's key (stored as `a b`); if it is the final
pair in the string, it is dropped, because its accumulated value is empty.
Pairs with `=` whose key is not preceded by a valueless attribute are stored
normally. -/
theorem c8_valueless_attr_merged :
    ∀ (a k s : List Char), a ≠ [] → k ≠ [] →
      (∀ c ∈ a, plainChar c = true) → (∀ c ∈ k, plainChar c = true) →
      (∀ c ∈ s, (c == '"') = false) →
      parseProps (a ++ ' ' :: k ++ '=' :: '"' :: s ++ ['"']) =
        [(a ++ ' ' :: k, '"' :: s ++ ['"'])] ∧
      parseProps ((k ++ '=' :: '"' :: s ++ ['"']) ++ ' ' :: a) =
        [(k, '"' :: s ++ ['"'])] := by
  intro a k s ha hk hap hkp hs
  have hac : ∀ c ∈ a, keyChar c = true := fun c hc => (plainChar_spec c (hap c hc)).1
  have hkc : ∀ c ∈ k, keyChar c = true := fun c hc => (plainChar_spec c (hkp c hc)).1
  have hkw : ∀ c ∈ k, jsWs c = false := fun c hc => (plainChar_spec c (hkp c hc)).2.2
  have hktrim : jsTrimL k = k := jsTrimL_of_no_ws k hkw
  have hkne : k.isEmpty = false := by
    cases k with
    | nil => exact absurd rfl hk
    | cons x t => rfl
  constructor
  · -- the valueless `a` merges into the following key
    have hKc : ∀ c ∈ a ++ ' ' :: k, keyChar c = true := by
      intro c hc
      rcases List.mem_append.mp hc with hca | hck
      · exact hac c hca
      · rcases List.mem_cons.mp hck with hsp | hck2
        · rw [hsp]
          decide
        · exact hkc c hck2
    have hKtrim : jsTrimL (a ++ ' ' :: k) = a ++ ' ' :: k := by
      apply jsTrimL_eq_self
      · intro hd hh
        cases a with
        | nil => exact absurd rfl ha
        | cons a0 a' =>
          rw [List.cons_append, List.head?_cons] at hh
          injection hh with hh'
          exact hh' ▸ (plainChar_spec a0 (hap a0 (by simp))).2.2
      · intro lst hl
        rw [List.getLast?_append_of_ne_nil a (by simp)] at hl
        rw [show (' ' :: k : List Char) = [' '] ++ k from rfl,
          List.getLast?_append_of_ne_nil [' '] hk] at hl
        exact (plainChar_spec lst (hkp lst (getLast?_imp_mem k lst hl))).2.2
    have hKne : (a ++ ' ' :: k).isEmpty = false := by
      cases a with
      | nil => exact absurd rfl ha
      | cons a0 a' => rfl
    exact parseProps_quoted (a ++ ' ' :: k) s hKc hKtrim hKne hs
  · -- the final valueless `a` is dropped
    have hfold1 := ppFold_quoted_state k s hkc hs
    have hcv : (jsTrimL ('"' :: s ++ ['"'])).isEmpty = false := by
      rw [jsTrimL_quoted, List.cons_append]
      rfl
    have stsp : ppStep
        { ppInit with key := k, isParsingValue := true, quoteType := '"',
                      value := '"' :: s ++ ['"'] } ' ' =
        { ppInit with attrs := [(k, '"' :: s ++ ['"'])], quoteType := '"' } := by
      have h0 : ppStep
          { ppInit with key := k, isParsingValue := true, quoteType := '"',
                        value := '"' :: s ++ ['"'] } ' ' =
          (if (!(jsTrimL ('"' :: s ++ ['"'])).isEmpty) = true then
            ({ ppInit with attrs := ppStore [] k ('"' :: s ++ ['"']), quoteType := '"' } : APState)
          else
            { ppInit with key := k, isParsingValue := true, quoteType := '"',
                          value := ('"' :: s ++ ['"']) ++ [' '] }) := rfl
      rw [h0, hcv]
      rw [ppStore_quoted, hktrim]
      simp [insertAssoc]
    have hfolda := ppFold_key a
      { ppInit with attrs := [(k, '"' :: s ++ ['"'])], quoteType := '"' }
      rfl rfl rfl hac
    have hfold2 : ((k ++ '=' :: '"' :: s ++ ['"']) ++ ' ' :: a).foldl ppStep ppInit =
        { ppInit with attrs := [(k, '"' :: s ++ ['"'])], quoteType := '"', key := a } := by
      rw [List.foldl_append, hfold1, List.foldl_cons, stsp, hfolda]
      simp [ppInit]
    have hje : jsTrimL ([] : List Char) = [] := rfl
    simp only [parseProps]
    rw [hfold2]
    simp [ppInit, hje]

/-- C8 witness: instantiating the amended statement at `a`, `b`, `1`
reproduces the counterexample values. -/
theorem c8_valueless_attr_witness :
    (lchars "a" ≠ [] ∧ lchars "b" ≠ [] ∧ (∀ c ∈ lchars "a", plainChar c = true) ∧
      (∀ c ∈ lchars "b", plainChar c = true) ∧ (∀ c ∈ lchars "1", (c == '"') = false)) ∧
    parseProps (lchars "a" ++ ' ' :: lchars "b" ++ '=' :: '"' :: lchars "1" ++ ['"']) =
      [(lchars "a" ++ ' ' :: lchars "b", '"' :: lchars "1" ++ ['"'])] ∧
    parseProps ((lchars "b" ++ '=' :: '"' :: lchars "1" ++ ['"']) ++ ' ' :: lchars "a") =
      [(lchars "b", '"' :: lchars "1" ++ ['"'])] :=
  ⟨⟨by decide, by decide, by decide, by decide, by decide⟩,
    c8_valueless_attr_merged (lchars "a") (lchars "b") (lchars "1")
      (by decide) (by decide) (by decide) (by decide) (by decide)⟩

theorem findMarker_at_marker (id rest : List Char) (hne : id ≠ [])
    (hal : ∀ c ∈ id, c.isAlphanum = true) :
    findMarker (lbrace :: id ++ rbrace :: rest) = some (0, id) := by
  have ht : (id ++ rbrace :: rest).takeWhile Char.isAlphanum = id :=
    takeWhile_append_all _ _ _ _ hal (by decide)
  have hd : (id ++ rbrace :: rest).dropWhile Char.isAlphanum = rbrace :: rest :=
    dropWhile_append_all _ _ _ _ hal (by decide)
  rw [List.cons_append]
  simp only [findMarker, beq_self_eq_true, if_true]
  rcases id with _ | ⟨c, cs⟩
  · exact absurd rfl hne
  · rw [ht, hd]
    simp

theorem findMarker_shift (pre rest : List Char)
    (h : ∀ c ∈ pre, (c == lbrace) = false) :
    findMarker (pre ++ rest) = (findMarker rest).map (fun p => (p.1 + pre.length, p.2)) := by
  induction pre with
  | nil =>
    rw [List.nil_append]
    cases hfr : findMarker rest with
    | none => rfl
    | some p => simp
  | cons c cs ih =>
    have hc : (c == lbrace) = false := h c (by simp)
    rw [List.cons_append]
    simp only [findMarker, hc, Bool.false_eq_true, if_false]
    rw [ih (fun x hx => h x (by simp [hx]))]
    cases hfr : findMarker rest with
    | none => rfl
    | some p =>
      simp [Function.comp, List.length_cons]
      omega

theorem findMarker_none (l : List Char) (h : ∀ c ∈ l, (c == lbrace) = false) :
    findMarker l = none := by
  have h2 := findMarker_shift l [] h
  rw [List.append_nil] at h2
  simpa using h2

theorem pureMarker_false_of_head (l : List Char) (c : Char) (rest : List Char)
    (hl : l = c :: rest) (hc : (c == lbrace) = false) : pureMarker l = false := by
  rw [hl]
  simp only [pureMarker, List.head?_cons]
  rw [show ((some c == some lbrace) : Bool) = (c == lbrace) from rfl, hc]
  simp

/-- C5 counterexample: for `Hello \x7bname\x7d!` the code yields
`` `Hello`,name,`!` `` — the literal span before the marker is trimmed
(`rawText.slice(lastIndex, position).trim()`), so the first fragment loses its
trailing space, contradicting the claimed `` `Hello `,name,`!` ``. -/
theorem c5_trailing_space_counterexample :
    parseTextL (lchars "Hello \x7bname\x7d!") = lchars "\x60Hello\x60,name,\x60!\x60" ∧
    lchars "\x60Hello\x60,name,\x60!\x60" ≠ lchars "\x60Hello \x60,name,\x60!\x60" :=
  ⟨rfl, by decide⟩

/-- C5 amended: for a text of the form `pre\x7bid\x7dpost` (one marker, literal
spans on both sides, no further braces), `parseText` emits the literal spans
and the bare identifier comma-joined in source order, but each literal span is
trimmed before being backquoted (and dropped entirely if it trims to
nothing); in particular the first fragment's trailing space is removed. -/
theorem c5_literal_spans_trimmed :
    ∀ (raw pre id post : List Char),
      jsTrimL (collapseWs raw) = pre ++ lbrace :: id ++ rbrace :: post →
      pre ≠ [] → jsTrimL pre ≠ [] → jsTrimL post ≠ [] →
      (∀ c ∈ pre, (c == lbrace) = false) → (∀ c ∈ post, (c == lbrace) = false) →
      id ≠ [] → (∀ c ∈ id, c.isAlphanum = true) →
      parseTextL raw =
        (bq :: jsTrimL pre ++ [bq]) ++ ',' :: id ++ ',' :: (bq :: jsTrimL post ++ [bq]) := by
  intro raw pre id post heq hpne hptr hpotr hprel hpostl hidne hal
  have hshift : findMarker (pre ++ lbrace :: id ++ rbrace :: post) = some (pre.length, id) := by
    rw [List.append_assoc]
    rw [findMarker_shift pre _ hprel]
    rw [findMarker_at_marker id post hidne hal]
    simp
  have hpm : pureMarker (pre ++ lbrace :: id ++ rbrace :: post) = false := by
    cases pre with
    | nil => exact absurd rfl hpne
    | cons p0 ps =>
      exact pureMarker_false_of_head _ p0 ((ps ++ lbrace :: id) ++ rbrace :: post)
        (by simp) (hprel p0 (by simp))
  have hbe : (jsTrimL pre).isEmpty = false := by
    cases h' : jsTrimL pre with
    | nil => exact absurd h' hptr
    | cons x xs => rfl
  have hpoe : (jsTrimL post).isEmpty = false := by
    cases h' : jsTrimL post with
    | nil => exact absurd h' hpotr
    | cons x xs => rfl
  have htake : (pre ++ lbrace :: id ++ rbrace :: post).take pre.length = pre := by
    rw [List.append_assoc]
    exact List.take_left pre _
  have hlen : ((pre ++ lbrace :: id) ++ [rbrace]).length = pre.length + id.length + 2 := by
    simp [List.length_append, List.length_cons]
    omega
  have hdrop : (pre ++ lbrace :: id ++ rbrace :: post).drop (pre.length + id.length + 2) =
      post := by
    rw [show (pre ++ lbrace :: id ++ rbrace :: post : List Char) =
      ((pre ++ lbrace :: id) ++ [rbrace]) ++ post by simp]
    exact List.drop_left' hlen
  have hTne : pre ++ lbrace :: id ++ rbrace :: post ≠ [] := by
    cases pre with
    | nil => exact absurd rfl hpne
    | cons p0 ps => simp
  obtain ⟨m, hm⟩ : ∃ m, (pre ++ lbrace :: id ++ rbrace :: post).length = m + 1 :=
    ⟨(pre ++ lbrace :: id ++ rbrace :: post).length - 1,
      (Nat.succ_pred_eq_of_pos (List.length_pos.mpr hTne)).symm⟩
  have hloop : interpLoop ((pre ++ lbrace :: id ++ rbrace :: post).length + 1)
      (pre ++ lbrace :: id ++ rbrace :: post) 0 [] =
      ([bq :: jsTrimL pre ++ [bq], id], pre.length + id.length + 2) := by
    simp only [interpLoop, List.drop_zero, hshift]
    rw [show sliceL (pre ++ lbrace :: id ++ rbrace :: post) 0 (0 + pre.length) =
      pre from by simp [sliceL, htake]]
    simp only [hbe, Bool.false_eq_true, if_false, List.nil_append, hm]
    simp only [interpLoop]
    rw [show (0 + pre.length + id.length + 2 : Nat) = pre.length + id.length + 2 from by omega]
    rw [hdrop, findMarker_none post hpostl]
    rfl
  simp only [parseTextL, heq, hshift, hpm, Bool.false_eq_true, if_false]
  rw [hloop]
  rw [hdrop, hpoe]
  simp [List.intercalate, List.intersperse]

/-- C5 witness: instantiating the amended statement at `Hello \x7bname\x7d!`
yields `` `Hello`,name,`!` ``. -/
theorem c5_literal_spans_witness :
    (jsTrimL (collapseWs (lchars "Hello \x7bname\x7d!")) =
        lchars "Hello " ++ lbrace :: lchars "name" ++ rbrace :: lchars "!" ∧
      lchars "Hello " ≠ [] ∧ jsTrimL (lchars "Hello ") ≠ [] ∧ jsTrimL (lchars "!") ≠ [] ∧
      lchars "name" ≠ []) ∧
    parseTextL (lchars "Hello \x7bname\x7d!") =
      (bq :: jsTrimL (lchars "Hello ") ++ [bq]) ++ ',' :: lchars "name" ++
        ',' :: (bq :: jsTrimL (lchars "!") ++ [bq]) :=
  ⟨⟨by decide, by decide, by decide, by decide, by decide⟩,
    c5_literal_spans_trimmed (lchars "Hello \x7bname\x7d!") (lchars "Hello ") (lchars "name")
      (lchars "!") (by decide) (by decide) (by decide) (by decide) (by decide) (by decide)
      (by decide) (by decide)⟩

/-- C6 witness: ` \x7bname\x7d ` trims to exactly one marker and translates to
the bare identifier `name`. -/
theorem c6_pure_marker_witness :
    (lchars "name" ≠ [] ∧ (∀ c ∈ lchars "name", c.isAlphanum = true) ∧
      jsTrimL (collapseWs (lchars " \x7bname\x7d ")) = lbrace :: lchars "name" ++ [rbrace]) ∧
    parseTextL (lchars " \x7bname\x7d ") = lchars "name" :=
  ⟨⟨by decide, by decide, by decide⟩,
    c6_pure_marker_shortcut (lchars " \x7bname\x7d ") (lchars "name") (by decide) (by decide)
      (by decide)⟩
